import Mathlib

/-!
Shallow embedding of the change-detection engine of the repository
(`.github/scripts/detect-changes/lib/`).  Python strings become `String`,
per-character work happens on `List Char` (`String.data`).  External
collaborators (the git diff, the filesystem, the `docker buildx` oracle and
the third-party `dockerfile_parse` library) are passed in as explicit inputs:
a list of changed paths, a list of discovered catalog entries, an oracle
function, a list of parsed instructions.  Everything below the collaborator
boundary is translated from the Python source.
-/

namespace Homy

/-! ## Generic string helpers (models of Python `str` primitives) -/

/-- Model of Python list/str prefix test: `listPref p l` is true iff `p` is a
prefix of `l` (used for `str.startswith`). -/
def listPref : List Char → List Char → Bool
  | [], _ => true
  | _ :: _, [] => false
  | a :: as, b :: bs => a == b && listPref as bs

/-- Model of Python `s.startswith(pre)`. -/
def pyStartsWith (s pre : String) : Bool :=
  listPref pre.data s.data

/-- Helper for `pyIn`: is `p` a contiguous sublist of `l`? -/
def hasSub (p : List Char) : List Char → Bool
  | [] => listPref p []
  | c :: rest => listPref p (c :: rest) || hasSub p rest

/-- Model of Python `pat in s` (substring containment). -/
def pyIn (pat s : String) : Bool :=
  hasSub pat.data s.data

/-- Model of Python `s.upper()` (ASCII, which covers every use below). -/
def pyUpper (s : String) : String :=
  String.mk (s.data.map Char.toUpper)

/-- Model of Python `s.lower()` (ASCII, which covers every use below). -/
def pyLower (s : String) : String :=
  String.mk (s.data.map Char.toLower)

/-- Model of Python `s.strip()`: drop leading and trailing whitespace. -/
def pyTrim (s : String) : String :=
  String.mk (((s.data.dropWhile Char.isWhitespace).reverse.dropWhile Char.isWhitespace).reverse)

/-- Helper for `pySplit`: accumulate the current token, flushing at
whitespace; empty tokens are dropped as Python `split()` does. -/
def pySplitAux : List Char → List Char → List String
  | [], cur => if cur.isEmpty then [] else [String.mk cur]
  | c :: cs, cur =>
    if c.isWhitespace then
      if cur.isEmpty then pySplitAux cs [] else String.mk cur :: pySplitAux cs []
    else pySplitAux cs (cur ++ [c])

/-- Model of Python `s.split()` (split on whitespace runs, dropping empties). -/
def pySplit (s : String) : List String :=
  pySplitAux s.data []

/-- Model of Python `' '.join(parts)`. -/
def joinSpace : List String → String
  | [] => ""
  | [x] => x
  | x :: xs => x ++ " " ++ joinSpace xs

/-- Model of Python `s.split(sep, 1)[1]` for a one-character separator:
everything after the first occurrence of `sep`. -/
def afterFirst (sep : Char) (s : String) : String :=
  String.mk (((s.data).dropWhile (fun c => !(c == sep))).drop 1)

/-! ## `version_normalizer.py`

`normalize_version` applies three `re.sub` substitutions:
`alpine3\.\d+ -> alpine`, `debian\d+ -> debian`, `ubuntu\d+\.\d+ -> ubuntu`.
A regex pattern is modelled as a first literal character plus a list of atoms
(literal char or a nonempty greedy digit run).  In all three patterns a digit
run is followed only by a literal dot or by the end of the pattern, so
maximal-munch matching of `\d+` is equivalent to the backtracking regex
semantics (a maximal digit run always ends before a non-digit).  `reSub`
scans left to right, replacing non-overlapping leftmost matches and resuming
after the matched region, exactly as `re.sub` does; the fuel argument starts
at the length of the list and is an upper bound on the number of scanning
steps, so it is never exhausted. -/

inductive RAtom where
  | lit (c : Char)
  | digs
deriving DecidableEq, Repr

/-- Match a list of pattern atoms at the head of `l`; on success return the
rest of the input after the match.  `digs` consumes a maximal nonempty digit
run. -/
def matchAtoms : List RAtom → List Char → Option (List Char)
  | [], l => some l
  | .lit _ :: _, [] => none
  | .lit c :: ps, x :: xs => if x = c then matchAtoms ps xs else none
  | .digs :: ps, l =>
    if (l.takeWhile Char.isDigit).isEmpty then none
    else matchAtoms ps (l.dropWhile Char.isDigit)

/-- One `re.sub` pass: at each position try to match `c0` followed by `pat`;
on a match emit `repl` and resume after the match, otherwise copy one
character.  `fuel` starts at the length of the input (an invariant bound,
see `reSub`). -/
def reSubF (c0 : Char) (pat : List RAtom) (repl : List Char) : Nat → List Char → List Char
  | _, [] => []
  | 0, l => l
  | fuel + 1, c :: rest =>
    if c = c0 then
      match matchAtoms pat rest with
      | some r => repl ++ reSubF c0 pat repl fuel r
      | none => c :: reSubF c0 pat repl fuel rest
    else c :: reSubF c0 pat repl fuel rest

/-- Model of `re.sub(c0 ++ pat, repl, l)`. -/
def reSub (c0 : Char) (pat : List RAtom) (repl : List Char) (l : List Char) : List Char :=
  reSubF c0 pat repl l.length l

/-- Atoms of `alpine3\.\d+` after the leading `a`. -/
def alpineRest : List RAtom :=
  [.lit 'l', .lit 'p', .lit 'i', .lit 'n', .lit 'e', .lit '3', .lit '.', .digs]

/-- Atoms of `debian\d+` after the leading `d`. -/
def debianRest : List RAtom :=
  [.lit 'e', .lit 'b', .lit 'i', .lit 'a', .lit 'n', .digs]

/-- Atoms of `ubuntu\d+\.\d+` after the leading `u`. -/
def ubuntuRest : List RAtom :=
  [.lit 'b', .lit 'u', .lit 'n', .lit 't', .lit 'u', .digs, .lit '.', .digs]

/-- `version_normalizer.normalize_version`: the three platform-suffix
substitutions applied in source order (alpine, debian, ubuntu).  The Python
`None`/non-string branches are outside the typed model; the empty string
returns as-is. -/
def normalize_version (version : String) : String :=
  if version.data.isEmpty then version
  else
    String.mk
      (reSub 'u' ubuntuRest ("ubuntu".data)
        (reSub 'd' debianRest ("debian".data)
          (reSub 'a' alpineRest ("alpine".data) version.data)))

/-! ## `base_images.py`

Filesystem discovery (`discover_base_images`) is the collaborator boundary:
the catalog is passed in as the list of discovered entries, each carrying the
directory name and the raw upstream version tag (`None` when the upstream
image had no tag). -/

structure DiscoveredImage where
  directory : String
  raw_version : Option String
deriving DecidableEq, Repr

/-- `base_images.normalize_ghcr_tag`. -/
def normalize_ghcr_tag (directory_name : String) (raw_version : Option String) : String :=
  let raw := match raw_version with
    | none => "latest"
    | some v => v
  let normalized_version := normalize_version raw
  let image_name := if pyStartsWith directory_name "node-" then "node" else directory_name
  "ghcr.io/groupsky/homy/" ++ image_name ++ ":" ++ normalized_version

/-- Canonical tag of a discovered entry. -/
def tagOf (i : DiscoveredImage) : String :=
  normalize_ghcr_tag i.directory i.raw_version

/-- Python `dict` assignment `m[k] = v` on an insertion-ordered association
list: overwrite in place if the key is present, else append. -/
def dictInsert (m : List (String × String)) (k v : String) : List (String × String) :=
  if m.any (fun p => p.1 == k) then
    m.map (fun p => if p.1 == k then (k, v) else p)
  else m ++ [(k, v)]

/-- `base_images.build_directory_to_ghcr_mapping`, with the discovery result
as input: folds over the discovered entries building the two dicts
`dir_to_ghcr` (first component) and `ghcr_to_dir` (second component). -/
def build_directory_to_ghcr_mapping (discovered : List DiscoveredImage) :
    List (String × String) × List (String × String) :=
  discovered.foldl
    (fun maps img =>
      let ghcr_tag := tagOf img
      (dictInsert maps.1 img.directory ghcr_tag, dictInsert maps.2 ghcr_tag img.directory))
    ([], [])

/-! ## `change_detection.py`

The `git diff --name-only` call is the collaborator boundary: the changed
file list is an input.  Both `detect_changed_base_images` and
`detect_changed_services` run the same core: collect the names of entries
one of whose strictly-nested paths changed, then `sorted(list(set(...)))`. -/

structure Entry where
  name : String
  directory : String
deriving DecidableEq, Repr

/-- The shared body of the two detectors: an entry is changed iff some
changed path starts with `directory + "/"`; the name set is deduplicated and
sorted. -/
def changedNamesCore (changed_files : List String) (entries : List Entry) : List String :=
  let matched := entries.filterMap fun e =>
    if changed_files.any (fun p => pyStartsWith p (e.directory ++ "/")) then some e.name
    else none
  matched.dedup.insertionSort (fun a b => a ≤ b)

/-- `change_detection.detect_changed_base_images` (git diff abstracted into
the changed-file list). -/
def detect_changed_base_images (changed_files : List String) (base_images : List Entry) :
    List String :=
  changedNamesCore changed_files base_images

/-- `change_detection.detect_changed_services` (git diff abstracted into the
changed-file list). -/
def detect_changed_services (changed_files : List String) (services : List Entry) :
    List String :=
  changedNamesCore changed_files services

/-! ## `dockerfile_parser.py`

The third-party `dockerfile_parse.DockerfileParser` is the collaborator
boundary: `parser.structure` is modelled as a list of instructions, each an
instruction keyword plus its value string. -/

structure Instr where
  instruction : String
  value : String
deriving DecidableEq, Repr

/-- One `FROM` line as parsed by `parse_from_lines`. -/
structure FromLine where
  image : String
  stage : Option String
  platform : Option String
deriving DecidableEq, Repr

/-- Stage alias of a `FROM` line: the token after a case-insensitive `AS`
keyword, if both are present. -/
def stageFrom (after : List String) : Option String :=
  match after with
  | [] => none
  | kw :: rest => if pyUpper kw = "AS" then rest.head? else none

/-- Parse a single instruction as `parse_from_lines` does for each element of
`parser.structure`: non-`FROM` instructions and malformed `FROM` lines yield
nothing. -/
def parseFromInstr (ins : Instr) : Option FromLine :=
  if pyUpper ins.instruction = "FROM" then
    if (pyTrim ins.value).data.isEmpty then none
    else
      match pySplit ins.value with
      | [] => none
      | p0 :: restParts =>
        if pyStartsWith p0 "--platform=" then
          match restParts with
          | [] => none
          | img :: after =>
            some { image := img, stage := stageFrom after, platform := some (afterFirst '=' p0) }
        else
          some { image := p0, stage := stageFrom restParts, platform := none }
  else none

/-- `dockerfile_parser.parse_from_lines` over the parsed structure. -/
def parse_from_lines (l : List Instr) : List FromLine :=
  l.filterMap parseFromInstr

/-- Python `stage_map` lookup: the dict maps each alias to the image of the
last `FROM` line introducing it (later assignments overwrite). -/
def stage_map_lookup (fl : List FromLine) (s : String) : Option String :=
  ((fl.filter (fun f => f.stage == some s)).map (fun f => f.image)).getLast?

/-- The alias-chasing `while` loop of `extract_final_stage_base`: substitute
through the alias map while the current value is a known alias and not yet
visited.  The fuel argument bounds the iterations; `resolve_fuel_sufficient`
below shows the fuel used by `extract_final_stage_base` is never exhausted,
so the `none` branch is dead there. -/
def resolveAux (fl : List FromLine) : Nat → List String → String → Option String
  | 0, _, _ => none
  | fuel + 1, visited, current =>
    match stage_map_lookup fl current with
    | none => some current
    | some nxt =>
      if current ∈ visited then some current
      else resolveAux fl fuel (current :: visited) nxt

/-- `dockerfile_parser.extract_final_stage_base`. -/
def extract_final_stage_base (l : List Instr) : Option String :=
  match (parse_from_lines l).getLast? with
  | none => none
  | some last =>
    resolveAux (parse_from_lines l) ((parse_from_lines l).length + 1) [] last.image

/-- Index of the last `FROM` instruction (`last_from_idx` in the Python
loops), computed as the maximum index whose instruction upper-cases to
`FROM`; `k` is the index of the head of the remaining list. -/
def lastFromIdxAux : List Instr → Nat → Option Nat
  | [], _ => none
  | ins :: rest, k =>
    match lastFromIdxAux rest (k + 1) with
    | some j => some j
    | none => if pyUpper ins.instruction == "FROM" then some k else none

/-- Index of the last `FROM` instruction, or `none` if there is none. -/
def lastFromIdx (l : List Instr) : Option Nat :=
  lastFromIdxAux l 0

/-- Is this instruction a `HEALTHCHECK`? -/
def isHCInstr (x : Instr) : Bool :=
  pyUpper x.instruction == "HEALTHCHECK"

/-- `dockerfile_parser.has_healthcheck`: only the first `HEALTHCHECK` after
the last `FROM` counts, and a bare `NONE` disables it. -/
def has_healthcheck (l : List Instr) : Bool :=
  match lastFromIdx l with
  | none => false
  | some i =>
    match (l.drop (i + 1)).find? isHCInstr with
    | none => false
    | some ins => !(pyUpper (pyTrim ins.value) == "NONE")

/-- Parsed `HEALTHCHECK` parameters. -/
structure HCParams where
  interval : Option String
  timeout : Option String
  start_period : Option String
  retries : Option String
  cmd : Option String
deriving DecidableEq, Repr

/-- Quote-aware tokenizer of the `HEALTHCHECK` value: a quote character
toggles the in-quote flag (and is kept), a space outside quotes ends the
current token. -/
def hcTokAux : List Char → List String → List Char → Bool → List String
  | [], parts, current, _ =>
    if current.isEmpty then parts else parts ++ [String.mk current]
  | c :: cs, parts, current, in_quotes =>
    if c == '"' || c == '\'' then hcTokAux cs parts (current ++ [c]) (!in_quotes)
    else if c == ' ' && !in_quotes then
      if current.isEmpty then hcTokAux cs parts current in_quotes
      else hcTokAux cs (parts ++ [String.mk current]) [] in_quotes
    else hcTokAux cs parts (current ++ [c]) in_quotes

/-- Tokenize a `HEALTHCHECK` value. -/
def hcTokenize (value : String) : List String :=
  hcTokAux value.data [] [] false

/-- Build the result record from collected flags and command tokens:
`cmd` is the command tokens rejoined with single spaces, or `None` when
there are none. -/
def hcFinalize (acc : HCParams) (cmd_parts : List String) : HCParams :=
  if cmd_parts.isEmpty then acc
  else { acc with cmd := some (joinSpace cmd_parts) }

/-- The flag-extraction loop of `parse_healthcheck_params`: recognized
`--name=value` flags fill fields, a case-insensitive `CMD` keyword ends flag
parsing (everything after it is the command, replacing any tokens collected
so far), other tokens accumulate as an implicit command. -/
def hcFlags : List String → HCParams → List String → HCParams
  | [], acc, cmd_parts => hcFinalize acc cmd_parts
  | part :: rest, acc, cmd_parts =>
    if pyStartsWith part "--interval=" then
      hcFlags rest { acc with interval := some (afterFirst '=' part) } cmd_parts
    else if pyStartsWith part "--timeout=" then
      hcFlags rest { acc with timeout := some (afterFirst '=' part) } cmd_parts
    else if pyStartsWith part "--start-period=" then
      hcFlags rest { acc with start_period := some (afterFirst '=' part) } cmd_parts
    else if pyStartsWith part "--retries=" then
      hcFlags rest { acc with retries := some (afterFirst '=' part) } cmd_parts
    else if pyUpper part = "CMD" then hcFinalize acc rest
    else hcFlags rest acc (cmd_parts ++ [part])

/-- Parse one `HEALTHCHECK` instruction value: `NONE` yields no parameters,
otherwise tokenize and extract flags and command. -/
def parseHealthcheckValue (rawValue : String) : Option HCParams :=
  let value := pyTrim rawValue
  if pyUpper value = "NONE" then none
  else
    some (hcFlags (hcTokenize value)
      { interval := none, timeout := none, start_period := none, retries := none, cmd := none }
      [])

/-- `dockerfile_parser.parse_healthcheck_params`: parameters of the first
`HEALTHCHECK` after the last `FROM` (`none` when there is no `FROM`, no
final-stage `HEALTHCHECK`, or a bare `NONE`). -/
def parse_healthcheck_params (l : List Instr) : Option HCParams :=
  match lastFromIdx l with
  | none => none
  | some i =>
    match (l.drop (i + 1)).find? isHCInstr with
    | none => none
    | some ins => parseHealthcheckValue ins.value

/-! ## `ghcr_client.py`

The `docker buildx imagetools inspect` subprocess is the collaborator
boundary, modelled as an oracle mapping the 0-based invocation number to an
outcome: success (`returncode == 0`), a failure with a `stderr` diagnostic,
or a transport-level exception (`subprocess.TimeoutExpired` /
`SubprocessError`, both of which the code wraps into the generic error). -/

inductive OracleResult where
  | success
  | failure (stderr : String)
  | exception
deriving DecidableEq, Repr

/-- Outcome of the retry loop of `check_image_exists`:
`found b` is a normal return, `rateLimit` is `GHCRRateLimitError`,
`ghcrFail` is the generic `GHCRError`. -/
inductive LoopResult where
  | found (b : Bool)
  | rateLimit
  | ghcrFail
deriving DecidableEq, Repr

/-- Outcome of a full `check_image_exists` call.  The four constructors are
pairwise distinct: `valueError` models `ValueError` (not a `GHCRError`),
`rateLimitError` models `GHCRRateLimitError` (a `GHCRError` subclass) and
`ghcrError` the generic `GHCRError`. -/
inductive PyResult where
  | ok (b : Bool)
  | valueError
  | rateLimitError
  | ghcrError
deriving DecidableEq, Repr

/-- Rate-limit classification: `'503' in result.stderr or
'service unavailable' in stderr_lower`. -/
def isRateLimit (stderr : String) : Bool :=
  pyIn "503" stderr || pyIn "service unavailable" (pyLower stderr)

/-- Not-found classification over `stderr_lower`. -/
def isNotFound (stderr : String) : Bool :=
  let low := pyLower stderr
  pyIn "manifest unknown" low || pyIn "not found" low || pyIn "manifest_unknown" low ||
    pyIn "requested access to the resource is denied" low

/-- Transient-error classification over `stderr_lower`. -/
def isTransient (stderr : String) : Bool :=
  let low := pyLower stderr
  pyIn "timeout" low || pyIn "connection refused" low || pyIn "temporary failure" low ||
    pyIn "i/o timeout" low

/-- `ghcr_client._is_valid_ghcr_tag`. -/
def is_valid_ghcr_tag (image_tag : String) : Bool :=
  if image_tag.data.isEmpty then false
  else if !pyIn "ghcr.io/groupsky/homy" image_tag then false
  else if !(image_tag.data.contains '/') || !(image_tag.data.contains ':') then false
  else true

/-- The `while attempt < retries` loop of `check_image_exists`.  The
structural `gas` argument equals `retries - attempt` at every call (the loop
guard `attempt < retries` holds exactly when `gas > 0`); `inv` counts oracle
invocations so far and `sleeps` records the `time.sleep` durations in order.
The `gas = 0` case is the fall-through `raise GHCRError` after the loop. -/
def checkLoop (oracle : Nat → OracleResult) (retries : Nat) :
    Nat → Nat → Nat → List Nat → LoopResult × Nat × List Nat
  | 0, _, inv, sleeps => (.ghcrFail, inv, sleeps)
  | gas + 1, attempt, inv, sleeps =>
    match oracle inv with
    | .success => (.found true, inv + 1, sleeps)
    | .exception => (.ghcrFail, inv + 1, sleeps)
    | .failure stderr =>
      if isRateLimit stderr then (.rateLimit, inv + 1, sleeps)
      else if isNotFound stderr then (.found false, inv + 1, sleeps)
      else if isTransient stderr then
        if attempt + 1 < retries then
          checkLoop oracle retries gas (attempt + 1) (inv + 1) (sleeps ++ [2 ^ attempt])
        else (.ghcrFail, inv + 1, sleeps)
      else (.ghcrFail, inv + 1, sleeps)

/-- Map a loop outcome into the result of the whole call. -/
def liftLoop : LoopResult → PyResult
  | .found b => .ok b
  | .rateLimit => .rateLimitError
  | .ghcrFail => .ghcrError

/-- `ghcr_client.check_image_exists`, returning the call outcome together
with the number of oracle invocations and the list of sleep durations.
An invalid tag raises `ValueError` before any oracle invocation. -/
def check_image_exists (image_tag : String) (oracle : Nat → OracleResult) (retries : Nat) :
    PyResult × Nat × List Nat :=
  if is_valid_ghcr_tag image_tag then
    let r := checkLoop oracle retries retries 0 0 []
    (liftLoop r.1, r.2)
  else (.valueError, 0, [])

/-- `ghcr_client._replace_tag_with_sha`: drop everything from the last colon
on (if any) and append `:sha`.  The `registry` argument is unused, as in the
source. -/
def replace_tag_with_sha (image : String) (sha : String) (_registry : String) : String :=
  let image_name :=
    if image.data.contains ':' then
      String.mk (((image.data.reverse.dropWhile (fun c => !(c == ':'))).drop 1).reverse)
    else image
  image_name ++ ":" ++ sha

/-- A service as consumed by `check_all_services`: its name and its `image`
from the compose config. -/
structure Service where
  service_name : String
  image : String
deriving DecidableEq, Repr

/-- Result of `check_image_exists(tag, retries=3)` under a per-tag oracle. -/
def tagCheck (oracle : String → Nat → OracleResult) (tag : String) : PyResult :=
  (check_image_exists tag (oracle tag) 3).1

/-- The loop body of `check_all_services` with the two accumulator lists.
`except GHCRError` absorbs both the generic and the rate-limit error into
`to_build`; a `ValueError` from tag validation is not caught and aborts the
whole call (`Except.error ()`). -/
def checkAllGo (oracle : String → Nat → OracleResult) (base_sha registry : String) :
    List Service → List Service → List Service → Except Unit (List Service × List Service)
  | [], to_build, to_retag => .ok (to_build, to_retag)
  | service :: rest, to_build, to_retag =>
    let image_with_sha := replace_tag_with_sha service.image base_sha registry
    match tagCheck oracle image_with_sha with
    | .ok true => checkAllGo oracle base_sha registry rest to_build (to_retag ++ [service])
    | .ok false => checkAllGo oracle base_sha registry rest (to_build ++ [service]) to_retag
    | .rateLimitError => checkAllGo oracle base_sha registry rest (to_build ++ [service]) to_retag
    | .ghcrError => checkAllGo oracle base_sha registry rest (to_build ++ [service]) to_retag
    | .valueError => .error ()

/-- `ghcr_client.check_all_services`. -/
def check_all_services (oracle : String → Nat → OracleResult) (services : List Service)
    (base_sha registry : String) : Except Unit (List Service × List Service) :=
  checkAllGo oracle base_sha registry services [] []

/-- Errors of `validate_fork_pr_base_images`: an uncaught `ValueError` from
tag validation, or the aggregate `GHCRError` carrying its message. -/
inductive VError where
  | valueError
  | aggregate (msg : String)
deriving DecidableEq, Repr

/-- The per-tag loop of `validate_fork_pr_base_images`: collect the missing
tags in input order (`except GHCRError` treats a failed check as missing);
an uncaught `ValueError` aborts. -/
def collectMissing (oracle : String → Nat → OracleResult) : List String → Except Unit (List String)
  | [] => .ok []
  | image_tag :: rest =>
    match tagCheck oracle image_tag with
    | .ok true => collectMissing oracle rest
    | .valueError => .error ()
    | _ => (collectMissing oracle rest).map (fun ms => image_tag :: ms)

/-- The aggregate error message, built exactly as the source concatenates
it: header, one `"  - {img}\n"` line per missing image, footer. -/
def fork_error_msg (missing_images : List String) : String :=
  (missing_images.foldl (fun acc img => acc ++ ("  - " ++ img ++ "\n"))
      ("Fork PR cannot proceed: Missing required base images in GHCR.\n\n" ++
        "The following base images must be built by a maintainer before this fork PR can build:\n"))
    ++ ("\nPlease contact a repository maintainer to build these base images first.\n" ++
        "Maintainers can trigger base image builds from the main repository.")

/-- `ghcr_client.validate_fork_pr_base_images`. -/
def validate_fork_pr_base_images (oracle : String → Nat → OracleResult) (is_fork : Bool)
    (base_images_needed : List String) : Except VError Unit :=
  if !is_fork then .ok ()
  else if base_images_needed.isEmpty then .ok ()
  else
    match collectMissing oracle base_images_needed with
    | .error () => .error .valueError
    | .ok missing_images =>
      if missing_images.isEmpty then .ok ()
      else .error (.aggregate (fork_error_msg missing_images))

/-- Substring containment at the proposition level (for the message
theorems): the needle's characters are a contiguous sublist of the hay's. -/
def StrContains (needle hay : String) : Prop :=
  needle.data <:+: hay.data

/-- An oracle outcome the classification sends to the transient branch: a
failure whose diagnostic is neither rate-limit nor not-found but matches a
transient pattern (checked in the source's order). -/
def transientRes (r : OracleResult) : Prop :=
  ∃ stderr, r = OracleResult.failure stderr ∧ isRateLimit stderr = false ∧
    isNotFound stderr = false ∧ isTransient stderr = true

/-- Stage aliases introduced by a parsed `FROM` list. -/
def stagesOf (fl : List FromLine) : List String :=
  fl.filterMap (fun f => f.stage)

/-! ## Shared lemmas about the string helpers -/

theorem str_data_append (s t : String) : (s ++ t).data = s.data ++ t.data :=
  rfl

theorem listPref_iff (p : List Char) : ∀ l : List Char, listPref p l = true ↔ p <+: l := by
  induction p with
  | nil => intro l; simp [listPref]
  | cons a as ih =>
    intro l
    cases l with
    | nil => simp [listPref]
    | cons b bs => simp [listPref, ih, List.cons_prefix_cons]

theorem hasSub_iff (p : List Char) : ∀ l : List Char, hasSub p l = true ↔ p <:+: l := by
  intro l
  induction l with
  | nil => simp [hasSub, listPref_iff, List.prefix_nil, List.infix_nil]
  | cons c rest ih =>
    simp [hasSub, listPref_iff, ih, List.infix_cons_iff]

/-! ## Claim C4 (`normalize_version` idempotence) -/

/-- Claim C4: the claim states `normalize_version` is idempotent for every
string.  The code is not: on `"ubuntu1.2buntu7.8"` the first pass rewrites
the match `ubuntu1.2` to `ubuntu`, gluing it onto the following
`buntu7.8` so that the output `"ubuntubuntu7.8"` contains a fresh
`ubuntu\d+\.\d+` match which a second pass rewrites to `"ubuntubuntu"`.
The function's own docstring ("is idempotent (running twice gives same
result)") and the repository's `TestNormalizationIdempotency` tests state
idempotence as intended behaviour, so this is a code bug, witnessed here by
evaluating the embedded code at the failing input. -/
theorem normalize_version_not_idempotent_at_failing_input :
    normalize_version "ubuntu1.2buntu7.8" = "ubuntubuntu7.8" ∧
    normalize_version (normalize_version "ubuntu1.2buntu7.8") = "ubuntubuntu" ∧
    normalize_version (normalize_version "ubuntu1.2buntu7.8") ≠
      normalize_version "ubuntu1.2buntu7.8" := by
  refine ⟨by decide, by decide, by decide⟩

/-! ## Claim C7 (`has_healthcheck` final-stage isolation) -/

/-- Claim C7: `has_healthcheck` is false whenever every `HEALTHCHECK`
instruction occurs before the last `FROM` (equivalently, none occurs after
it), including the degenerate case of no `FROM` at all; and it is also false
when the first `HEALTHCHECK` after the last `FROM` is a bare
(case-insensitive, whitespace-trimmed) `NONE`. -/
theorem has_healthcheck_final_stage_isolation (l : List Instr) :
    (lastFromIdx l = none → has_healthcheck l = false) ∧
    (∀ i, lastFromIdx l = some i →
      (∀ ins ∈ l.drop (i + 1), pyUpper ins.instruction ≠ "HEALTHCHECK") →
      has_healthcheck l = false) ∧
    (∀ i ins, lastFromIdx l = some i →
      (l.drop (i + 1)).find? isHCInstr = some ins →
      pyUpper (pyTrim ins.value) = "NONE" →
      has_healthcheck l = false) := by
  refine ⟨?_, ?_, ?_⟩
  · intro h
    simp [has_healthcheck, h]
  · intro i hi hnone
    have hfind : (l.drop (i + 1)).find? isHCInstr = none := by
      rw [List.find?_eq_none]
      intro x hx
      simp [isHCInstr, hnone x hx]
    simp [has_healthcheck, hi, hfind]
  · intro i ins hi hfind hnone
    simp [has_healthcheck, hi, hfind, hnone]

/-- Witness for C7 at two concrete inputs: a health check only in a non-final
stage, and a final-stage `HEALTHCHECK NONE`. -/
theorem has_healthcheck_final_stage_isolation_witness :
    has_healthcheck
        [⟨"FROM", "node AS base"⟩, ⟨"HEALTHCHECK", "CMD ok"⟩, ⟨"FROM", "base"⟩] = false ∧
    has_healthcheck [⟨"FROM", "node"⟩, ⟨"HEALTHCHECK", " none "⟩] = false := by
  constructor
  · exact (has_healthcheck_final_stage_isolation _).2.1 2 (by decide) (by decide)
  · exact (has_healthcheck_final_stage_isolation _).2.2 0 ⟨"HEALTHCHECK", " none "⟩
      (by decide) (by decide) (by decide)

/-! ## Claim C3 (rate-limit failures are raised immediately) -/

/-- Claim C3: for a syntactically valid tag, a first-invocation diagnostic
containing `503` (or `service unavailable` in lower case) makes
`check_image_exists` raise the distinct rate-limit error (the
`PyResult.rateLimitError` constructor, different from `ghcrError` and from
the `ok` results) after exactly one oracle invocation and zero sleeps, even
though attempts remain. -/
theorem check_image_exists_rate_limit_immediate (tag : String)
    (oracle : Nat → OracleResult) (retries : Nat) (stderr : String)
    (hvalid : is_valid_ghcr_tag tag = true) (hr : 0 < retries)
    (hfail : oracle 0 = OracleResult.failure stderr)
    (hrl : pyIn "503" stderr = true ∨ pyIn "service unavailable" (pyLower stderr) = true) :
    check_image_exists tag oracle retries = (PyResult.rateLimitError, 1, []) := by
  have hrlb : isRateLimit stderr = true := by
    cases hrl with
    | inl h => simp [isRateLimit, h]
    | inr h => simp [isRateLimit, h]
  obtain ⟨g, rfl⟩ : ∃ g, retries = g + 1 := ⟨retries - 1, by omega⟩
  simp [check_image_exists, hvalid, checkLoop, hfail, hrlb, liftLoop]

/-- Witness for C3 at a concrete tag and oracle. -/
theorem check_image_exists_rate_limit_immediate_witness :
    check_image_exists "ghcr.io/groupsky/homy/node:18"
        (fun _ => OracleResult.failure "503 Service Unavailable") 3 =
      (PyResult.rateLimitError, 1, []) :=
  check_image_exists_rate_limit_immediate _ _ 3 "503 Service Unavailable"
    (by decide) (by decide) rfl (Or.inl (by decide))

/-! ## Claim C2 (retry protocol with exponential backoff) -/

theorem checkLoop_transient_then_success (oracle : Nat → OracleResult) (retries : Nat) :
    ∀ N attempt inv sleeps, attempt + N < retries →
      (∀ i, i < N → transientRes (oracle (inv + i))) →
      oracle (inv + N) = OracleResult.success →
      checkLoop oracle retries (retries - attempt) attempt inv sleeps =
        (LoopResult.found true, inv + N + 1,
          sleeps ++ (List.range N).map (fun j => 2 ^ (attempt + j))) := by
  intro N
  induction N with
  | zero =>
    intro attempt inv sleeps hlt _ hsucc
    obtain ⟨g, hg⟩ : ∃ g, retries - attempt = g + 1 := ⟨retries - attempt - 1, by omega⟩
    rw [hg]
    simp only [checkLoop]
    rw [show inv + 0 = inv from rfl] at hsucc
    simp [hsucc]
  | succ N ih =>
    intro attempt inv sleeps hlt htrans hsucc
    obtain ⟨g, hg⟩ : ∃ g, retries - attempt = g + 1 := ⟨retries - attempt - 1, by omega⟩
    rw [hg]
    obtain ⟨stderr, hfail, hr, hn, ht⟩ := htrans 0 (by omega)
    rw [show inv + 0 = inv from rfl] at hfail
    simp only [checkLoop, hfail, hr, hn, ht, Bool.false_eq_true, if_false, if_true]
    rw [if_pos (show attempt + 1 < retries by omega)]
    rw [show g = retries - (attempt + 1) by omega]
    rw [ih (attempt + 1) (inv + 1) (sleeps ++ [2 ^ attempt]) (by omega)
      (fun i hi => by
        have := htrans (i + 1) (by omega)
        rwa [show inv + (i + 1) = inv + 1 + i by omega] at this)
      (by rwa [show inv + 1 + N = inv + (N + 1) by omega])]
    have hlist : sleeps ++ [2 ^ attempt] ++
        (List.range N).map (fun j => 2 ^ (attempt + 1 + j)) =
        sleeps ++ (List.range (N + 1)).map (fun j => 2 ^ (attempt + j)) := by
      rw [List.append_assoc]
      congr 1
      rw [List.range_succ_eq_map, List.map_cons, List.map_map, List.singleton_append]
      refine congrArg₂ _ rfl ?_
      refine List.map_congr_left (fun j _ => ?_)
      simp only [Function.comp_apply]
      congr 1
      omega
    rw [hlist, show inv + 1 + N + 1 = inv + (N + 1) + 1 by omega]

theorem checkLoop_all_transient (oracle : Nat → OracleResult) (retries : Nat) :
    ∀ gas attempt inv sleeps, gas = retries - attempt → attempt ≤ retries →
      (∀ i, i < gas → transientRes (oracle (inv + i))) →
      checkLoop oracle retries gas attempt inv sleeps =
        (LoopResult.ghcrFail, inv + gas,
          sleeps ++ (List.range (gas - 1)).map (fun j => 2 ^ (attempt + j))) := by
  intro gas
  induction gas with
  | zero =>
    intro attempt inv sleeps _ _ _
    simp [checkLoop]
  | succ g ih =>
    intro attempt inv sleeps hg hle htrans
    obtain ⟨stderr, hfail, hr, hn, ht⟩ := htrans 0 (by omega)
    rw [show inv + 0 = inv from rfl] at hfail
    simp only [checkLoop, hfail, hr, hn, ht, Bool.false_eq_true, if_false, if_true]
    match g, hg with
    | 0, hg =>
      rw [if_neg (show ¬ attempt + 1 < retries by omega)]
      simp
    | g' + 1, hg =>
      rw [if_pos (show attempt + 1 < retries by omega)]
      rw [ih (attempt + 1) (inv + 1) (sleeps ++ [2 ^ attempt]) (by omega) (by omega)
        (fun i hi => by
          have := htrans (i + 1) (by omega)
          rwa [show inv + (i + 1) = inv + 1 + i by omega] at this)]
      have hlist : sleeps ++ [2 ^ attempt] ++
          (List.range (g' + 1 - 1)).map (fun j => 2 ^ (attempt + 1 + j)) =
          sleeps ++ (List.range (g' + 1 + 1 - 1)).map (fun j => 2 ^ (attempt + j)) := by
        rw [List.append_assoc]
        congr 1
        rw [show g' + 1 + 1 - 1 = g' + 1 from rfl, show g' + 1 - 1 = g' from rfl,
          List.range_succ_eq_map, List.map_cons, List.map_map, List.singleton_append]
        refine congrArg₂ _ rfl ?_
        refine List.map_congr_left (fun j _ => ?_)
        simp only [Function.comp_apply]
        congr 1
        omega
      rw [hlist, show inv + 1 + (g' + 1) = inv + (g' + 1 + 1) by omega]

/-- Claim C2: for a syntactically valid tag, `N` consecutive
transient-classified diagnostics followed by a success make
`check_image_exists` return true after exactly `N + 1` oracle invocations
with sleeps `1, 2, 4, ..., 2^(N-1)` in order; and if every budgeted
invocation is transient, the call raises the generic exhaustion error after
`retries` invocations. -/
theorem check_image_exists_retry_protocol (tag : String) (oracle : Nat → OracleResult)
    (retries : Nat) (hvalid : is_valid_ghcr_tag tag = true) :
    (∀ N, N < retries → (∀ i, i < N → transientRes (oracle i)) →
      oracle N = OracleResult.success →
      check_image_exists tag oracle retries =
        (PyResult.ok true, N + 1, (List.range N).map (fun j => 2 ^ j))) ∧
    ((∀ i, i < retries → transientRes (oracle i)) →
      check_image_exists tag oracle retries =
        (PyResult.ghcrError, retries, (List.range (retries - 1)).map (fun j => 2 ^ j))) := by
  constructor
  · intro N hN htrans hsucc
    have h := checkLoop_transient_then_success oracle retries N 0 0 []
      (by omega) (by simpa using htrans) (by simpa using hsucc)
    rw [Nat.sub_zero] at h
    simp only [check_image_exists, hvalid, if_true, h, liftLoop]
    simp
  · intro htrans
    have h := checkLoop_all_transient oracle retries retries 0 0 []
      (by omega) (by omega) (by simpa using htrans)
    simp only [check_image_exists, hvalid, if_true, h, liftLoop]
    simp

/-- Witness for C2: two connection-timeout diagnostics then success, with
three attempts — three invocations, sleeps 1 then 2 (end-to-end scenario 4
of the spec). -/
theorem check_image_exists_retry_protocol_witness :
    check_image_exists "ghcr.io/groupsky/homy/node:18"
        (fun i => if i < 2 then OracleResult.failure "connection timeout"
          else OracleResult.success) 3 =
      (PyResult.ok true, 3, [1, 2]) := by
  have h := (check_image_exists_retry_protocol "ghcr.io/groupsky/homy/node:18"
      (fun i => if i < 2 then OracleResult.failure "connection timeout"
        else OracleResult.success) 3 (by decide)).1 2 (by decide)
    (fun i hi => ⟨"connection timeout", by simp [hi], by decide, by decide, by decide⟩)
    (by simp)
  rw [h]
  decide

/-! ## Claim C8 (`extract_final_stage_base` terminates, null iff no `FROM`) -/

theorem lookup_mem_stages (fl : List FromLine) (current nxt : String)
    (h : stage_map_lookup fl current = some nxt) : current ∈ stagesOf fl := by
  unfold stage_map_lookup at h
  cases hf : fl.filter (fun f => f.stage == some current) with
  | nil => rw [hf] at h; simp at h
  | cons f fs =>
    have hmem : f ∈ fl.filter (fun f => f.stage == some current) := by rw [hf]; exact List.mem_cons_self f fs
    have ⟨hfl, hst⟩ := List.mem_filter.mp hmem
    exact List.mem_filterMap.mpr ⟨f, hfl, by simpa using hst⟩

theorem length_filter_mono {α : Type} (p q : α → Bool) (h : ∀ a, p a = true → q a = true) :
    ∀ l : List α, (l.filter p).length ≤ (l.filter q).length := by
  intro l
  induction l with
  | nil => simp
  | cons a rest ih =>
    by_cases hp : p a = true
    · rw [List.filter_cons_of_pos hp, List.filter_cons_of_pos (h a hp)]
      simpa using ih
    · rw [List.filter_cons_of_neg (by simpa using hp)]
      cases hq : q a
      · rw [List.filter_cons_of_neg (by simp [hq])]; exact ih
      · rw [List.filter_cons_of_pos hq]
        exact ih.trans (by simp)

theorem length_filter_visited_lt (visited : List String) (c : String) (hcv : c ∉ visited) :
    ∀ L : List String, c ∈ L →
      (L.filter (fun s => decide (s ∉ c :: visited))).length <
        (L.filter (fun s => decide (s ∉ visited))).length := by
  intro L
  induction L with
  | nil => intro h; simp at h
  | cons a rest ih =>
    intro hcL
    by_cases hac : a = c
    · subst hac
      rw [List.filter_cons_of_neg (by simp), List.filter_cons_of_pos (by simpa using hcv)]
      have := length_filter_mono (fun s => decide (s ∉ a :: visited))
        (fun s => decide (s ∉ visited))
        (fun s hs => by
          simp only [decide_eq_true_eq, List.mem_cons, not_or] at hs ⊢
          exact hs.2) rest
      simpa using Nat.lt_succ_of_le this
    · rcases List.mem_cons.mp hcL with h | h
      · exact absurd h.symm hac
      · by_cases hv : a ∈ visited
        · rw [List.filter_cons_of_neg (by simp [hv]), List.filter_cons_of_neg (by simp [hv])]
          exact ih h
        · rw [List.filter_cons_of_pos (by simp [hv, hac]),
            List.filter_cons_of_pos (by simp [hv])]
          simpa using ih h

theorem resolve_fuel_sufficient (fl : List FromLine) :
    ∀ fuel visited current,
      ((stagesOf fl).dedup.filter (fun s => decide (s ∉ visited))).length < fuel →
      (resolveAux fl fuel visited current).isSome = true := by
  intro fuel
  induction fuel with
  | zero => intro visited current h; omega
  | succ fuel ih =>
    intro visited current h
    rw [resolveAux]
    cases hl : stage_map_lookup fl current with
    | none => simp
    | some nxt =>
      by_cases hv : current ∈ visited
      · simp [hv]
      · simp only [hv, if_false]
        refine ih (current :: visited) nxt ?_
        have hc : current ∈ (stagesOf fl).dedup :=
          List.mem_dedup.mpr (lookup_mem_stages fl current nxt hl)
        have := length_filter_visited_lt visited current hv (stagesOf fl).dedup hc
        omega

/-- Claim C8: `extract_final_stage_base` always terminates with an answer —
it is a total function whose alias-chasing loop carries fuel exceeding the
number of distinct stage aliases, and `resolve_fuel_sufficient` shows that
fuel is never exhausted (also on cyclic or self-referential alias maps) —
and it returns `none` exactly when the Dockerfile has no (well-formed)
`FROM` reference. -/
theorem extract_final_stage_base_terminates_iff (l : List Instr) :
    extract_final_stage_base l = none ↔ parse_from_lines l = [] := by
  constructor
  · intro h
    cases hfl : (parse_from_lines l).getLast? with
    | none => exact List.getLast?_eq_none_iff.mp hfl
    | some last =>
      exfalso
      have hbound :
          ((stagesOf (parse_from_lines l)).dedup.filter
            (fun s => decide (s ∉ ([] : List String)))).length <
            (parse_from_lines l).length + 1 := by
        have h1 := List.length_filter_le (fun s => decide (s ∉ ([] : List String)))
          (stagesOf (parse_from_lines l)).dedup
        have h2 := (List.dedup_sublist (stagesOf (parse_from_lines l))).length_le
        have h3 := List.length_filterMap_le (fun f => f.stage) (parse_from_lines l)
        unfold stagesOf at h1 h2 ⊢
        omega
      have hs := resolve_fuel_sufficient (parse_from_lines l)
        ((parse_from_lines l).length + 1) [] last.image hbound
      unfold extract_final_stage_base at h
      simp only [hfl] at h
      rw [h] at hs
      simp at hs
  · intro h
    unfold extract_final_stage_base
    rw [h]
    rfl

/-- Witness for C8: a cyclic alias map (`a` aliased from `b`, `b` from `a`)
still yields an answer rather than looping or failing. -/
theorem extract_final_stage_base_terminates_iff_witness :
    extract_final_stage_base [⟨"FROM", "a AS b"⟩, ⟨"FROM", "b AS a"⟩] ≠ none := fun h =>
  absurd ((extract_final_stage_base_terminates_iff
    [⟨"FROM", "a AS b"⟩, ⟨"FROM", "b AS a"⟩]).mp h) (by decide)

/-! ## Claim C10 (`parse_healthcheck_params`: first final-stage declaration wins) -/

theorem lastFromIdxAux_append (l1 l2 : List Instr) :
    ∀ k, lastFromIdxAux (l1 ++ l2) k =
      match lastFromIdxAux l2 (k + l1.length) with
      | some j => some j
      | none => lastFromIdxAux l1 k := by
  induction l1 with
  | nil =>
    intro k
    simp only [List.nil_append, List.length_nil, Nat.add_zero]
    cases lastFromIdxAux l2 k <;> simp [lastFromIdxAux]
  | cons ins rest ih =>
    intro k
    simp only [List.cons_append, lastFromIdxAux, List.append_eq, List.length_cons]
    rw [ih (k + 1), show k + 1 + rest.length = k + (rest.length + 1) by omega]
    cases lastFromIdxAux l2 (k + (rest.length + 1)) <;>
      cases lastFromIdxAux rest (k + 1) <;> simp

theorem lastFromIdxAux_none (l : List Instr) :
    ∀ k, (∀ x ∈ l, pyUpper x.instruction ≠ "FROM") → lastFromIdxAux l k = none := by
  induction l with
  | nil => intro k _; rfl
  | cons ins rest ih =>
    intro k h
    rw [lastFromIdxAux, ih (k + 1) (fun x hx => h x (List.mem_cons_of_mem ins hx))]
    simp [h ins (List.mem_cons_self ins rest)]

theorem lastFromIdxAux_lt (l : List Instr) :
    ∀ k j, lastFromIdxAux l k = some j → k ≤ j ∧ j < k + l.length := by
  induction l with
  | nil => intro k j h; simp [lastFromIdxAux] at h
  | cons ins rest ih =>
    intro k j h
    rw [lastFromIdxAux] at h
    cases hr : lastFromIdxAux rest (k + 1) with
    | some j' =>
      rw [hr] at h
      simp only [Option.some.injEq] at h
      subst h
      have := ih (k + 1) j' hr
      simp only [List.length_cons]
      omega
    | none =>
      rw [hr] at h
      by_cases hf : (pyUpper ins.instruction == "FROM") = true
      · rw [if_pos hf] at h
        simp only [Option.some.injEq] at h
        subst h
        simp only [List.length_cons]
        omega
      · rw [if_neg hf] at h
        simp at h

theorem find?_append_of_forall_neg {α : Type} (p : α → Bool) (l1 l2 : List α)
    (h : ∀ x ∈ l1, p x = false) : (l1 ++ l2).find? p = l2.find? p := by
  rw [List.find?_append]
  rw [show l1.find? p = none from List.find?_eq_none.mpr (fun x hx => by simp [h x hx])]
  rfl

/-- Claim C10: when the instruction list is `pre ++ hc :: post` with the last
`FROM` inside `pre` at index `i` (`post` contains no `FROM`), no
`HEALTHCHECK` between that `FROM` and `hc`, and `hc` a `HEALTHCHECK`, then
`parse_healthcheck_params` returns exactly the parse of `hc`'s value (its
flag/CMD record, or `none` for a bare `NONE`) — any later `HEALTHCHECK`
instructions in `post` have no effect on the result. -/
theorem parse_healthcheck_params_first_final_stage_wins (pre : List Instr) (hc : Instr)
    (post : List Instr) (i : Nat)
    (hHC : pyUpper hc.instruction = "HEALTHCHECK")
    (hFrom : lastFromIdx pre = some i)
    (hNoFromPost : ∀ x ∈ post, pyUpper x.instruction ≠ "FROM")
    (hNoHC : ∀ x ∈ pre.drop (i + 1), pyUpper x.instruction ≠ "HEALTHCHECK") :
    parse_healthcheck_params (pre ++ hc :: post) = parseHealthcheckValue hc.value := by
  have hcNotFrom : pyUpper hc.instruction ≠ "FROM" := by rw [hHC]; decide
  have hlast : lastFromIdx (pre ++ hc :: post) = some i := by
    unfold lastFromIdx at hFrom ⊢
    rw [lastFromIdxAux_append pre (hc :: post) 0,
      lastFromIdxAux_none (hc :: post) (0 + pre.length) (fun x hx => by
        rcases List.mem_cons.mp hx with h | h
        · rw [h]; exact hcNotFrom
        · exact hNoFromPost x h)]
    exact hFrom
  have hi : i < pre.length := by
    have := lastFromIdxAux_lt pre 0 i hFrom
    omega
  have hdrop : (pre ++ hc :: post).drop (i + 1) = pre.drop (i + 1) ++ (hc :: post) :=
    List.drop_append_of_le_length (by omega)
  have hfind : ((pre ++ hc :: post).drop (i + 1)).find? isHCInstr = some hc := by
    rw [hdrop,
      find?_append_of_forall_neg isHCInstr _ _ (fun x hx => by
        simp [isHCInstr, hNoHC x hx]),
      List.find?_cons_of_pos _ (by simp [isHCInstr, hHC])]
  unfold parse_healthcheck_params
  rw [hlast]
  simp only [hfind]

/-- Witness for C10: the `HEALTHCHECK NONE` that follows the first
final-stage `HEALTHCHECK` is ignored; the first declaration's flags and
command are returned. -/
theorem parse_healthcheck_params_first_final_stage_wins_witness :
    parse_healthcheck_params
        [⟨"FROM", "node"⟩, ⟨"HEALTHCHECK", "--interval=30s CMD echo ok"⟩,
          ⟨"HEALTHCHECK", "NONE"⟩] =
      some { interval := some "30s", timeout := none, start_period := none,
             retries := none, cmd := some "echo ok" } := by
  have h := parse_healthcheck_params_first_final_stage_wins
    [⟨"FROM", "node"⟩] ⟨"HEALTHCHECK", "--interval=30s CMD echo ok"⟩
    [⟨"HEALTHCHECK", "NONE"⟩] 0 (by decide) (by decide)
    (by intro x hx; fin_cases hx; decide) (by intro x hx; simp at hx)
  rw [show ([⟨"FROM", "node"⟩] : List Instr) ++
      ⟨"HEALTHCHECK", "--interval=30s CMD echo ok"⟩ :: [⟨"HEALTHCHECK", "NONE"⟩] =
      [⟨"FROM", "node"⟩, ⟨"HEALTHCHECK", "--interval=30s CMD echo ok"⟩,
        ⟨"HEALTHCHECK", "NONE"⟩] from rfl] at h
  rw [h]
  decide

/-! ## Claim C5 (`build_directory_to_ghcr_mapping` inverse-consistency) -/

theorem dictInsert_of_fresh (m : List (String × String)) (k v : String)
    (h : ∀ p ∈ m, p.1 ≠ k) : dictInsert m k v = m ++ [(k, v)] := by
  unfold dictInsert
  rw [if_neg]
  intro hc
  obtain ⟨p, hp, hpk⟩ := List.any_eq_true.mp hc
  exact h p hp (by simpa using hpk)

theorem build_mapping_foldl (l : List DiscoveredImage) :
    ∀ m1 m2 : List (String × String),
      (∀ i ∈ l, ∀ p ∈ m1, p.1 ≠ i.directory) →
      (∀ i ∈ l, ∀ p ∈ m2, p.1 ≠ tagOf i) →
      (l.map (fun i => i.directory)).Nodup →
      (l.map tagOf).Nodup →
      l.foldl
        (fun maps img =>
          (dictInsert maps.1 img.directory (tagOf img),
            dictInsert maps.2 (tagOf img) img.directory)) (m1, m2) =
        (m1 ++ l.map (fun i => (i.directory, tagOf i)),
          m2 ++ l.map (fun i => (tagOf i, i.directory))) := by
  induction l with
  | nil => intro m1 m2 _ _ _ _; simp
  | cons i rest ih =>
    intro m1 m2 h1 h2 hd ht
    rw [List.foldl_cons,
      dictInsert_of_fresh m1 i.directory (tagOf i) (h1 i (List.mem_cons_self i rest)),
      dictInsert_of_fresh m2 (tagOf i) i.directory (h2 i (List.mem_cons_self i rest))]
    have hd' := List.nodup_cons.mp hd
    have ht' := List.nodup_cons.mp ht
    rw [ih (m1 ++ [(i.directory, tagOf i)]) (m2 ++ [(tagOf i, i.directory)])
      (fun j hj p hp => by
        rcases List.mem_append.mp hp with hm | hm
        · exact h1 j (List.mem_cons_of_mem i hj) p hm
        · rw [List.mem_singleton.mp hm]
          intro hpj
          refine hd'.1 ?_
          show i.directory ∈ List.map (fun i => i.directory) rest
          rw [show i.directory = j.directory from hpj]
          exact List.mem_map_of_mem (fun i => i.directory) hj)
      (fun j hj p hp => by
        rcases List.mem_append.mp hp with hm | hm
        · exact h2 j (List.mem_cons_of_mem i hj) p hm
        · rw [List.mem_singleton.mp hm]
          intro hpj
          refine ht'.1 ?_
          rw [show tagOf i = tagOf j from hpj]
          exact List.mem_map_of_mem tagOf hj)
      hd'.2 ht'.2]
    simp

/-- Claim C5: when the discovered directories are distinct (the catalog's
data-model invariant: one entry per subdirectory) and no two of them
normalize to the same canonical tag, the two dicts built by
`build_directory_to_ghcr_mapping` contain exactly one pair per discovered
entry (in discovery order) and nothing else, one direction is the exact
inverse of the other, and an empty catalog yields two empty maps. -/
theorem build_mapping_inverse_consistent (discovered : List DiscoveredImage)
    (hdir : (discovered.map (fun i => i.directory)).Nodup)
    (htag : (discovered.map tagOf).Nodup) :
    (build_directory_to_ghcr_mapping discovered).1 =
      discovered.map (fun i => (i.directory, tagOf i)) ∧
    (build_directory_to_ghcr_mapping discovered).2 =
      discovered.map (fun i => (tagOf i, i.directory)) ∧
    (∀ d t, (d, t) ∈ (build_directory_to_ghcr_mapping discovered).1 ↔
      (t, d) ∈ (build_directory_to_ghcr_mapping discovered).2) ∧
    (discovered = [] → build_directory_to_ghcr_mapping discovered = ([], [])) := by
  have hfold := build_mapping_foldl discovered [] []
    (by intro i _ p hp; simp at hp) (by intro i _ p hp; simp at hp) hdir htag
  have h1 : (build_directory_to_ghcr_mapping discovered).1 =
      discovered.map (fun i => (i.directory, tagOf i)) := by
    unfold build_directory_to_ghcr_mapping
    rw [hfold]
    simp
  have h2 : (build_directory_to_ghcr_mapping discovered).2 =
      discovered.map (fun i => (tagOf i, i.directory)) := by
    unfold build_directory_to_ghcr_mapping
    rw [hfold]
    simp
  refine ⟨h1, h2, ?_, ?_⟩
  · intro d t
    rw [h1, h2]
    constructor
    · intro hm
      obtain ⟨i, hi, hp⟩ := List.mem_map.mp hm
      obtain ⟨hpd, hpt⟩ := Prod.mk.injEq .. ▸ hp
      exact List.mem_map.mpr ⟨i, hi, by rw [hpd, hpt]⟩
    · intro hm
      obtain ⟨i, hi, hp⟩ := List.mem_map.mp hm
      obtain ⟨hpt, hpd⟩ := Prod.mk.injEq .. ▸ hp
      exact List.mem_map.mpr ⟨i, hi, by rw [hpd, hpt]⟩
  · intro h
    subst h
    rfl

/-- Witness for C5 at a concrete two-entry catalog (spec scenario 1 plus a
second directory). -/
theorem build_mapping_inverse_consistent_witness :
    (build_directory_to_ghcr_mapping
      [⟨"node-18-alpine", some "18.20.8-alpine3.21"⟩, ⟨"grafana", some "9.5.21"⟩]).1 =
      [("node-18-alpine", "ghcr.io/groupsky/homy/node:18.20.8-alpine"),
        ("grafana", "ghcr.io/groupsky/homy/grafana:9.5.21")] ∧
    (build_directory_to_ghcr_mapping
      [⟨"node-18-alpine", some "18.20.8-alpine3.21"⟩, ⟨"grafana", some "9.5.21"⟩]).2 =
      [("ghcr.io/groupsky/homy/node:18.20.8-alpine", "node-18-alpine"),
        ("ghcr.io/groupsky/homy/grafana:9.5.21", "grafana")] := by
  have h := build_mapping_inverse_consistent
    [⟨"node-18-alpine", some "18.20.8-alpine3.21"⟩, ⟨"grafana", some "9.5.21"⟩]
    (by decide) (by decide)
  refine ⟨?_, ?_⟩
  · rw [h.1]; decide
  · rw [h.2.1]; decide

/-! ## Claim C6 (change mapper: strict prefix match, sorted unique output) -/

theorem pyStartsWith_self_slash (s : String) : pyStartsWith s (s ++ "/") = false := by
  by_contra h
  have hb : pyStartsWith s (s ++ "/") = true := by
    cases hv : pyStartsWith s (s ++ "/")
    · exact absurd hv h
    · rfl
  have hp : (s ++ "/").data <+: s.data := (listPref_iff _ _).mp hb
  have := hp.length_le
  rw [str_data_append] at this
  simp at this

/-- Claim C6: the change mapper includes a name in its output iff some entry
carries that name and some changed path strictly extends that entry's
directory (starts with `directory + "/"`); the output is `≤`-sorted and
duplicate-free; an empty changed-path list gives an empty output; a path
exactly equal to the directory (no trailing separator) never matches (shown
for a one-entry catalog, and in general by the membership criterion); and
`detect_changed_services` is the same computation as
`detect_changed_base_images`. -/
theorem change_mapper_prefix_match (changed_files : List String) (entries : List Entry) :
    (∀ n, n ∈ detect_changed_base_images changed_files entries ↔
      ∃ e ∈ entries, e.name = n ∧
        ∃ p ∈ changed_files, pyStartsWith p (e.directory ++ "/") = true) ∧
    (detect_changed_base_images changed_files entries).Sorted (· ≤ ·) ∧
    (detect_changed_base_images changed_files entries).Nodup ∧
    (changed_files = [] → detect_changed_base_images changed_files entries = []) ∧
    (∀ e : Entry, e.name ∉ detect_changed_base_images [e.directory] [e]) ∧
    (∀ cf es, detect_changed_services cf es = detect_changed_base_images cf es) := by
  have hmem : ∀ cf es (n : String), n ∈ detect_changed_base_images cf es ↔
      ∃ e ∈ es, e.name = n ∧ ∃ p ∈ cf, pyStartsWith p (e.directory ++ "/") = true := by
    intro cf es n
    unfold detect_changed_base_images changedNamesCore
    rw [(List.perm_insertionSort _ _).mem_iff, List.mem_dedup, List.mem_filterMap]
    constructor
    · rintro ⟨e, he, hsome⟩
      by_cases hany : cf.any (fun p => pyStartsWith p (e.directory ++ "/")) = true
      · rw [if_pos hany] at hsome
        obtain ⟨p, hp, hps⟩ := List.any_eq_true.mp hany
        exact ⟨e, he, by injection hsome, p, hp, hps⟩
      · rw [if_neg hany] at hsome
        cases hsome
    · rintro ⟨e, he, hn, p, hp, hps⟩
      refine ⟨e, he, ?_⟩
      rw [if_pos (List.any_eq_true.mpr ⟨p, hp, hps⟩), hn]
  refine ⟨hmem changed_files entries, ?_, ?_, ?_, ?_, fun _ _ => rfl⟩
  · exact List.sorted_insertionSort _ _
  · exact ((List.perm_insertionSort _ _).nodup_iff).mpr (List.nodup_dedup _)
  · intro h
    subst h
    unfold detect_changed_base_images changedNamesCore
    rw [show entries.filterMap (fun e =>
        if ([] : List String).any (fun p => pyStartsWith p (e.directory ++ "/")) then
          some e.name else none) = [] from
      List.filterMap_eq_nil_iff.mpr (fun e _ => by simp)]
    rfl
  · intro e hmm
    obtain ⟨e', he', _, p, hp, hps⟩ := (hmem [e.directory] [e] e.name).mp hmm
    rw [List.mem_singleton.mp he'] at hps
    rw [List.mem_singleton.mp hp] at hps
    rw [pyStartsWith_self_slash e.directory] at hps
    exact Bool.noConfusion hps

/-- Witness for C6: a strictly nested path marks the entry changed; the bare
directory path does not. -/
theorem change_mapper_prefix_match_witness :
    "img" ∈ detect_changed_base_images ["a/x.txt"] [⟨"img", "a"⟩] ∧
    "img" ∉ detect_changed_base_images ["a"] [⟨"img", "a"⟩] := by
  constructor
  · exact ((change_mapper_prefix_match ["a/x.txt"] [⟨"img", "a"⟩]).1 "img").mpr
      ⟨⟨"img", "a"⟩, by decide, rfl, "a/x.txt", by decide, by decide⟩
  · exact (change_mapper_prefix_match ["a"] [⟨"img", "a"⟩]).2.2.2.2.1 ⟨"img", "a"⟩

/-! ## Claim C1 (`check_all_services` error absorption) -/

/-- Counterexample to C1 as stated: a service whose SHA-tagged image fails
tag validation makes `check_image_exists` raise `ValueError`, which
`except GHCRError` does not catch, so `check_all_services` propagates the
error instead of appending the service to `to_build` and returning a
partition. -/
theorem check_all_services_value_error_counterexample :
    check_all_services (fun _ _ => OracleResult.success) [⟨"s", "foo"⟩] "abc"
        "ghcr.io/groupsky/homy" = Except.error () ∧
    ∀ res : List Service × List Service,
      check_all_services (fun _ _ => OracleResult.success) [⟨"s", "foo"⟩] "abc"
        "ghcr.io/groupsky/homy" ≠ Except.ok res := by
  refine ⟨rfl, ?_⟩
  intro res h
  rw [show check_all_services (fun _ _ => OracleResult.success) [⟨"s", "foo"⟩] "abc"
      "ghcr.io/groupsky/homy" = Except.error () from rfl] at h
  exact Except.noConfusion h

theorem checkAllGo_partitions (oracle : String → Nat → OracleResult)
    (base_sha registry : String) :
    ∀ (l b r : List Service),
      (∀ s ∈ l, tagCheck oracle (replace_tag_with_sha s.image base_sha registry) ≠
        PyResult.valueError) →
      checkAllGo oracle base_sha registry l b r =
        Except.ok
          (b ++ l.filter (fun s =>
            !(tagCheck oracle (replace_tag_with_sha s.image base_sha registry) ==
              PyResult.ok true)),
           r ++ l.filter (fun s =>
            tagCheck oracle (replace_tag_with_sha s.image base_sha registry) ==
              PyResult.ok true)) := by
  intro l
  induction l with
  | nil => intro b r _; simp [checkAllGo]
  | cons s rest ih =>
    intro b r h
    have hs := h s (List.mem_cons_self s rest)
    have hrest := fun x hx => h x (List.mem_cons_of_mem s hx)
    rw [checkAllGo]
    cases htc : tagCheck oracle (replace_tag_with_sha s.image base_sha registry) with
    | ok bv =>
      cases bv
      · simp only
        rw [ih (b ++ [s]) r hrest,
          List.filter_cons_of_pos (by rw [htc]; decide),
          List.filter_cons_of_neg (by rw [htc]; decide)]
        simp
      · simp only
        rw [ih b (r ++ [s]) hrest,
          List.filter_cons_of_neg (by rw [htc]; decide),
          List.filter_cons_of_pos (by rw [htc]; decide)]
        simp
    | valueError => exact absurd htc hs
    | rateLimitError =>
      simp only
      rw [ih (b ++ [s]) r hrest,
        List.filter_cons_of_pos (by rw [htc]; decide),
        List.filter_cons_of_neg (by rw [htc]; decide)]
      simp
    | ghcrError =>
      simp only
      rw [ih (b ++ [s]) r hrest,
        List.filter_cons_of_pos (by rw [htc]; decide),
        List.filter_cons_of_neg (by rw [htc]; decide)]
      simp

/-- Claim C1, amended: when no per-service check raises the uncaught
`ValueError` (i.e. every SHA-tagged image passes tag validation),
`check_all_services` absorbs every `GHCRError` — generic and rate-limit —
into `to_build` and returns the order-preserving partition of the input:
`to_build` collects exactly the services whose check did not report the
image as existing (not found, generic error, or rate-limit error) and
`to_retag` the rest.  (As stated, the claim also covered the invalid-tag
`ValueError`; the counterexample shows that error propagates instead.) -/
theorem check_all_services_absorbs_ghcr_errors (oracle : String → Nat → OracleResult)
    (services : List Service) (base_sha registry : String)
    (h : ∀ s ∈ services, tagCheck oracle (replace_tag_with_sha s.image base_sha registry) ≠
      PyResult.valueError) :
    check_all_services oracle services base_sha registry =
      Except.ok
        (services.filter (fun s =>
          !(tagCheck oracle (replace_tag_with_sha s.image base_sha registry) ==
            PyResult.ok true)),
         services.filter (fun s =>
          tagCheck oracle (replace_tag_with_sha s.image base_sha registry) ==
            PyResult.ok true)) := by
  unfold check_all_services
  rw [checkAllGo_partitions oracle base_sha registry services [] [] h]
  simp

/-- Witness for C1 (amended): an existing image is retagged, a missing one
built, a rate-limited one conservatively built; order preserved. -/
theorem check_all_services_absorbs_ghcr_errors_witness :
    check_all_services
        (fun t _ => if t = "ghcr.io/groupsky/homy/a:abc" then OracleResult.success
          else if t = "ghcr.io/groupsky/homy/b:abc" then OracleResult.failure "manifest unknown"
          else OracleResult.failure "503")
        [⟨"a", "ghcr.io/groupsky/homy/a:latest"⟩, ⟨"b", "ghcr.io/groupsky/homy/b:latest"⟩,
          ⟨"c", "ghcr.io/groupsky/homy/c:latest"⟩] "abc" "ghcr.io/groupsky/homy" =
      Except.ok
        ([⟨"b", "ghcr.io/groupsky/homy/b:latest"⟩, ⟨"c", "ghcr.io/groupsky/homy/c:latest"⟩],
         [⟨"a", "ghcr.io/groupsky/homy/a:latest"⟩]) := by
  rw [check_all_services_absorbs_ghcr_errors
    (fun t _ => if t = "ghcr.io/groupsky/homy/a:abc" then OracleResult.success
      else if t = "ghcr.io/groupsky/homy/b:abc" then OracleResult.failure "manifest unknown"
      else OracleResult.failure "503")
    [⟨"a", "ghcr.io/groupsky/homy/a:latest"⟩, ⟨"b", "ghcr.io/groupsky/homy/b:latest"⟩,
      ⟨"c", "ghcr.io/groupsky/homy/c:latest"⟩] "abc" "ghcr.io/groupsky/homy"
    (by intro s hs; fin_cases hs <;> decide)]
  rfl

/-! ## Claim C9 (fork-PR gate: no-op cases and fail-closed aggregate error) -/

/-- Counterexample to C9 as stated: a required tag that fails tag validation
makes the per-tag check raise `ValueError`, which the gate's
`except GHCRError` does not catch — the call propagates `ValueError` instead
of raising the aggregate (maintainer-naming) error. -/
theorem validate_fork_pr_value_error_counterexample :
    validate_fork_pr_base_images (fun _ _ => OracleResult.success) true ["bad"] =
      Except.error VError.valueError ∧
    ∀ msg, validate_fork_pr_base_images (fun _ _ => OracleResult.success) true ["bad"] ≠
      Except.error (VError.aggregate msg) := by
  refine ⟨rfl, ?_⟩
  intro msg h
  rw [show validate_fork_pr_base_images (fun _ _ => OracleResult.success) true ["bad"] =
      Except.error VError.valueError from rfl] at h
  simp at h

theorem collectMissing_ok (oracle : String → Nat → OracleResult) :
    ∀ tags : List String, (∀ t ∈ tags, tagCheck oracle t ≠ PyResult.valueError) →
      collectMissing oracle tags =
        Except.ok (tags.filter (fun t => !(tagCheck oracle t == PyResult.ok true))) := by
  intro tags
  induction tags with
  | nil => intro _; rfl
  | cons t rest ih =>
    intro h
    have ht := h t (List.mem_cons_self t rest)
    have hrest := ih (fun x hx => h x (List.mem_cons_of_mem t hx))
    rw [collectMissing]
    cases htc : tagCheck oracle t with
    | ok bv =>
      cases bv
      · simp only
        rw [hrest, List.filter_cons_of_pos (by rw [htc]; decide)]
        rfl
      · simp only
        rw [hrest, List.filter_cons_of_neg (by rw [htc]; decide)]
    | valueError => exact absurd htc ht
    | rateLimitError =>
      simp only
      rw [hrest, List.filter_cons_of_pos (by rw [htc]; decide)]
      rfl
    | ghcrError =>
      simp only
      rw [hrest, List.filter_cons_of_pos (by rw [htc]; decide)]
      rfl

theorem fork_msg_foldl_grows (l : List String) :
    ∀ acc : String, ∃ ext : String,
      l.foldl (fun acc img => acc ++ ("  - " ++ img ++ "\n")) acc = acc ++ ext := by
  induction l with
  | nil => intro acc; exact ⟨"", by simp [String.append_empty]⟩
  | cons x rest ih =>
    intro acc
    obtain ⟨ext, hext⟩ := ih (acc ++ ("  - " ++ x ++ "\n"))
    exact ⟨("  - " ++ x ++ "\n") ++ ext, by
      rw [List.foldl_cons, hext, String.append_assoc]⟩

theorem strContains_append_right (x a b : String) (h : StrContains x a) :
    StrContains x (a ++ b) := by
  obtain ⟨s, t, hsplit⟩ := h
  exact ⟨s, t ++ b.data, by rw [str_data_append, ← hsplit]; simp [List.append_assoc]⟩

theorem strContains_append_left (x a b : String) (h : StrContains x b) :
    StrContains x (a ++ b) := by
  obtain ⟨s, t, hsplit⟩ := h
  exact ⟨a.data ++ s, t, by rw [str_data_append, ← hsplit]; simp [List.append_assoc]⟩

theorem strContains_line (t : String) : StrContains t ("  - " ++ t ++ "\n") := by
  exact ⟨"  - ".data, "\n".data, by simp [StrContains, str_data_append]⟩

theorem fork_msg_contains_missing (missing : List String) (t : String) (ht : t ∈ missing) :
    StrContains t (fork_error_msg missing) := by
  unfold fork_error_msg
  refine strContains_append_right _ _ _ ?_
  generalize ("Fork PR cannot proceed: Missing required base images in GHCR.\n\n" ++
    "The following base images must be built by a maintainer before this fork PR can build:\n"
      : String) = header
  induction missing generalizing header with
  | nil => simp at ht
  | cons x rest ih =>
    rcases List.mem_cons.mp ht with h | h
    · subst h
      rw [List.foldl_cons]
      obtain ⟨ext, hext⟩ := fork_msg_foldl_grows rest (header ++ ("  - " ++ t ++ "\n"))
      rw [hext]
      exact strContains_append_right _ _ _
        (strContains_append_left _ _ _ (strContains_line t))
    · rw [List.foldl_cons]
      exact ih h (header ++ ("  - " ++ x ++ "\n"))

theorem fork_msg_contains_maintainer (missing : List String) :
    StrContains "maintainer" (fork_error_msg missing) := by
  unfold fork_error_msg
  obtain ⟨ext, hext⟩ := fork_msg_foldl_grows missing
    ("Fork PR cannot proceed: Missing required base images in GHCR.\n\n" ++
      "The following base images must be built by a maintainer before this fork PR can build:\n")
  rw [hext]
  refine strContains_append_right _ _ _ (strContains_append_right _ _ _ ?_)
  exact (hasSub_iff _ _).mp (by decide)

/-- Claim C9, amended: `validate_fork_pr_base_images` is a no-op when
`is_fork` is false or the tag list is empty; and when every per-tag check
avoids the uncaught invalid-tag `ValueError`, the gate is fail-closed over
the remaining outcomes: with `missing` the tags whose check did not report
the image as existing (not found, generic `GHCRError`, or rate-limit), a
nonempty `missing` yields one aggregate error whose message names every
missing tag and contains the word "maintainer", `missing` contains no tag
whose check reported the image present, and an empty `missing` returns
normally.  (As stated, the claim also treated `ValueError` as fail-closed;
the counterexample shows it propagates instead.) -/
theorem validate_fork_pr_fail_closed_aggregate (oracle : String → Nat → OracleResult)
    (is_fork : Bool) (tags : List String) :
    (is_fork = false → validate_fork_pr_base_images oracle is_fork tags = Except.ok ()) ∧
    (tags = [] → validate_fork_pr_base_images oracle is_fork tags = Except.ok ()) ∧
    ((∀ t ∈ tags, tagCheck oracle t ≠ PyResult.valueError) →
      (tags.filter (fun t => !(tagCheck oracle t == PyResult.ok true)) = [] →
        validate_fork_pr_base_images oracle is_fork tags = Except.ok ()) ∧
      (is_fork = true →
        tags.filter (fun t => !(tagCheck oracle t == PyResult.ok true)) ≠ [] →
        validate_fork_pr_base_images oracle is_fork tags =
          Except.error (VError.aggregate (fork_error_msg
            (tags.filter (fun t => !(tagCheck oracle t == PyResult.ok true))))) ∧
        (∀ t ∈ tags.filter (fun t => !(tagCheck oracle t == PyResult.ok true)),
          StrContains t (fork_error_msg
            (tags.filter (fun t => !(tagCheck oracle t == PyResult.ok true))))) ∧
        StrContains "maintainer" (fork_error_msg
          (tags.filter (fun t => !(tagCheck oracle t == PyResult.ok true)))) ∧
        (∀ t ∈ tags, tagCheck oracle t = PyResult.ok true →
          t ∉ tags.filter (fun t => !(tagCheck oracle t == PyResult.ok true))))) := by
  refine ⟨?_, ?_, ?_⟩
  · intro h
    subst h
    rfl
  · intro h
    subst h
    unfold validate_fork_pr_base_images
    cases is_fork <;> rfl
  · intro hnv
    constructor
    · intro hempty
      unfold validate_fork_pr_base_images
      cases is_fork
      · rfl
      · simp only [Bool.not_true, Bool.false_eq_true, if_false]
        cases htags : tags with
        | nil => rfl
        | cons t rest =>
          rw [if_neg (by simp)]
          rw [← htags, collectMissing_ok oracle tags hnv]
          simp only
          rw [if_pos (by rw [hempty]; rfl)]
    · intro hfork hne
      subst hfork
      have hval : validate_fork_pr_base_images oracle true tags =
          Except.error (VError.aggregate (fork_error_msg
            (tags.filter (fun t => !(tagCheck oracle t == PyResult.ok true))))) := by
        unfold validate_fork_pr_base_images
        simp only [Bool.not_true, Bool.false_eq_true, if_false]
        cases htags : tags with
        | nil => simp [htags] at hne
        | cons t rest =>
          rw [if_neg (by simp)]
          rw [← htags, collectMissing_ok oracle tags hnv]
          simp only
          rw [if_neg (by
            intro hemp
            exact hne (List.isEmpty_iff.mp hemp))]
      refine ⟨hval, ?_, fork_msg_contains_maintainer _, ?_⟩
      · intro t ht
        exact fork_msg_contains_missing _ t ht
      · intro t _ hok hmem
        have := (List.mem_filter.mp hmem).2
        rw [hok] at this
        exact Bool.noConfusion this

/-- Witness for C9 (amended): one present and one missing tag — the gate
fails with the aggregate message naming the missing tag. -/
theorem validate_fork_pr_fail_closed_aggregate_witness :
    validate_fork_pr_base_images
        (fun t _ => if t = "ghcr.io/groupsky/homy/a:1" then OracleResult.success
          else OracleResult.failure "manifest unknown") true
        ["ghcr.io/groupsky/homy/a:1", "ghcr.io/groupsky/homy/b:1"] =
      Except.error (VError.aggregate (fork_error_msg ["ghcr.io/groupsky/homy/b:1"])) := by
  have h := ((validate_fork_pr_fail_closed_aggregate
    (fun t _ => if t = "ghcr.io/groupsky/homy/a:1" then OracleResult.success
      else OracleResult.failure "manifest unknown") true
    ["ghcr.io/groupsky/homy/a:1", "ghcr.io/groupsky/homy/b:1"]).2.2
    (by intro t ht; fin_cases ht <;> decide)).2 rfl (by decide)
  rw [h.1]
  rfl

end Homy
